import Mathlib

/-!
# demo_docking.cpp : application state and per-frame callbacks

Shallow embedding of `src/bindings/imgui_bundle/demos_cpp/demos_immapp/demo_docking.cpp`.

* `AppState` is the state struct of the demo (lines 21-32).
* One call of `CommandGui` (lines 97-169) is a step on `AppState`, driven by what the
  immediate-mode widgets of that frame return (`FrameInput`).  Drawing and logging calls
  go to the external GUI library and do not touch `AppState`; they are left out of the step.
* `StatusBarGui` (lines 172-180) returns the state together with the draw calls it issues.
* The docking configuration built in `main` (lines 265-309) is a pair of lists.

Number model:
* `int counter` is an `Int` kept in the 32-bit two's-complement range; `counter++` wraps
  (see `wrapInt`).
* `float` has two embeddings of the same control flow.
  - `DemoDocking.CommandGui`: exact rationals (`ℚ`), step `3/1000`.  This is the idealised
    arithmetic; it carries the statements that do not depend on rounding and the ones
    worded for exact rationals (progress bounds, frame count).
  - `DemoDocking.Binary32.CommandGui`: IEEE-754 single precision, as the code computes:
    `+=` is the exact sum rounded to nearest, ties to even, `>=` is the IEEE comparison,
    `0.003f` is `6442451 / 2^31`.  It carries the statements about the value stored by
    line 153 and the test of line 154.
-/

namespace DemoDocking

/-! ## Data model -/

/-- The values of `enum class RocketState` (lines 26-30). -/
inductive RocketState where
  | Init
  | Preparing
  | Launched
  deriving DecidableEq, Repr

/-- The struct `AppState` (lines 21-32), with its default member initialisers. -/
structure AppState where
  f : ℚ := 0
  counter : Int := 0
  rocket_progress : ℚ := 0
  rocket_state : RocketState := RocketState.Init
  deriving DecidableEq

/-- The state `AppState appState;` that `main` creates (line 193). -/
def initialAppState : AppState := {}

/-- What the widgets called by `CommandGui` report during one frame.

* `slider`: `SliderFloat("float", &state.f, 0, 1)`; `some v` when it returned `true`
  after writing `v` into `state.f`, `none` when it left `state.f` alone.
* `button`: return value of `Button("Button")`.
* `launch_rocket`: return value of `Button("Launch rocket")` (only called in `Init`).
* `reset_rocket`: return value of `Button("Reset Rocket")` (only called in `Launched`). -/
structure FrameInput where
  slider : Option ℚ
  button : Bool
  launch_rocket : Bool
  reset_rocket : Bool
  deriving DecidableEq

/-! ## Machine integers -/

/-- Smallest value of a 32-bit `int`. -/
def INT_MIN : Int := -2147483648

/-- Largest value of a 32-bit `int`. -/
def INT_MAX : Int := 2147483647

/-- Reduction of an integer to the 32-bit two's-complement range: the value an `int`
holds after an arithmetic result is stored in it.  `state.counter++` at the largest `int`
overflows; the model takes the two's-complement wrap-around that the usual targets
produce. -/
def wrapInt (x : Int) : Int := (x + 2147483648) % 4294967296 - 2147483648

/-- The values an `int` can hold. -/
def IsInt (x : Int) : Prop := INT_MIN ≤ x ∧ x ≤ INT_MAX

instance (x : Int) : Decidable (IsInt x) := by
  unfold IsInt; exact inferInstance

/-! ## CommandGui -/

/-- The step 0.003 added to `rocket_progress` on each frame in `Preparing` (line 153), in
exact rational arithmetic.  The binary32 literal `0.003f` is `Binary32.rocketStep`. -/
def rocketStep : ℚ := 3 / 1000

/-- Lines 126-130: the slider edits `state.f`. -/
def sliderPart (state : AppState) (i : FrameInput) : AppState :=
  match i.slider with
  | some v => { state with f := v }
  | none => state

/-- Lines 133-137: `if (ImGui::Button("Button")) state.counter++;`. -/
def buttonPart (state : AppState) (i : FrameInput) : AppState :=
  if i.button then { state with counter := wrapInt (state.counter + 1) } else state

/-- Lines 142-168: the `if / else if / else if` on `state.rocket_state`, in exact rational
arithmetic.  `Binary32.rocketPart` is the same branch in single precision. -/
def rocketPart (state : AppState) (i : FrameInput) : AppState :=
  match state.rocket_state with
  | RocketState.Init =>
    if i.launch_rocket then
      { state with rocket_state := RocketState.Preparing }
    else state
  | RocketState.Preparing =>
    let state1 := { state with rocket_progress := state.rocket_progress + rocketStep }
    if state1.rocket_progress ≥ 1 then
      { state1 with rocket_state := RocketState.Launched }
    else state1
  | RocketState.Launched =>
    if i.reset_rocket then
      { state with rocket_state := RocketState.Init, rocket_progress := 0 }
    else state

/-- One call of `CommandGui(AppState& state)` (lines 97-169): slider, counter button,
then the rocket branch, in source order. -/
def CommandGui (state : AppState) (i : FrameInput) : AppState :=
  rocketPart (buttonPart (sliderPart state i) i) i

/-- The state after a sequence of frames, each one call of `CommandGui`. -/
def runFrames (state : AppState) (frames : List FrameInput) : AppState :=
  frames.foldl CommandGui state

/-- The number of frames in which `Button("Button")` reported a click. -/
def clicks (frames : List FrameInput) : Nat :=
  (frames.filter (fun i => i.button)).length

/-- The cycle of the spec: Init → Preparing → Launched → Init. -/
def RocketState.next : RocketState → RocketState
  | RocketState.Init => RocketState.Preparing
  | RocketState.Preparing => RocketState.Launched
  | RocketState.Launched => RocketState.Init

/-! ## StatusBarGui -/

/-- The immediate-mode draw calls that `StatusBarGui` issues (lines 176-178). -/
inductive DrawCall where
  | Text (text : String)
  | SameLine
  | ProgressBar (fraction : ℚ) (width height : ℚ)
  deriving DecidableEq

/-- One call of `StatusBarGui(AppState& app_state)` (lines 172-180): the state after the
call and the draw calls issued, in order. -/
def StatusBarGui (app_state : AppState) : AppState × List DrawCall :=
  if app_state.rocket_state = RocketState.Preparing then
    (app_state,
      [DrawCall.Text "Rocket completion: ",
       DrawCall.SameLine,
       DrawCall.ProgressBar app_state.rocket_progress 100 15])
  else
    (app_state, [])

/-- Whether a draw call is a progress bar. -/
def DrawCall.isProgressBar : DrawCall → Bool
  | DrawCall.ProgressBar _ _ _ => true
  | _ => false

/-! ## Startup configuration built in `main` -/

/-- Modelled from the spec: the direction type of the external GUI library (`ImGuiDir`),
whose declaration is not in the source file; the direction of a docking split. -/
inductive ImGuiDir where
  | ImGuiDir_None
  | ImGuiDir_Left
  | ImGuiDir_Right
  | ImGuiDir_Up
  | ImGuiDir_Down
  deriving DecidableEq, Repr

/-- Modelled from the spec: the docking split record of the external runner
(`HelloImGui::DockingSplit`), whose declaration is not in the source file: a named layout
region carved out of a parent region at a given ratio and direction.  The fields are the
ones `main` assigns (lines 267-278). -/
structure DockingSplit where
  initialDock : String
  newDock : String
  direction : ImGuiDir
  ratio : ℚ
  deriving DecidableEq

/-- Modelled from the spec: the dockable window record of the external runner
(`HelloImGui::DockableWindow`), whose declaration is not in the source file: a named panel
bound to a layout region.  The fields are the ones `main` assigns (lines 287-302), the
rendering callback apart. -/
structure DockableWindow where
  label : String
  dockSpaceName : String
  deriving DecidableEq

/-- Lines 267-271. -/
def splitMainBottom : DockingSplit :=
  { initialDock := "MainDockSpace", newDock := "BottomSpace",
    direction := ImGuiDir.ImGuiDir_Down, ratio := 1 / 4 }

/-- Lines 274-278. -/
def splitMainLeft : DockingSplit :=
  { initialDock := "MainDockSpace", newDock := "LeftSpace",
    direction := ImGuiDir.ImGuiDir_Left, ratio := 1 / 4 }

/-- Line 281: `runnerParams.dockingParams.dockingSplits`. -/
def dockingSplits : List DockingSplit := [splitMainBottom, splitMainLeft]

/-- Lines 287-289. -/
def commandsWindow : DockableWindow :=
  { label := "Commands", dockSpaceName := "LeftSpace" }

/-- Lines 294-296. -/
def logsWindow : DockableWindow :=
  { label := "Logs", dockSpaceName := "BottomSpace" }

/-- Lines 299-301. -/
def dearImGuiDemoWindow : DockableWindow :=
  { label := "Dear ImGui Demo", dockSpaceName := "MainDockSpace" }

/-- Lines 305-309: `runnerParams.dockingParams.dockableWindows`. -/
def dockableWindows : List DockableWindow :=
  [commandsWindow, logsWindow, dearImGuiDemoWindow]

/-- Modelled from the spec: the input condition of the external runner on a docking split
(section 4.2): non-empty strings for the names and a ratio in (0,1). -/
def DockingSplit.valid (sp : DockingSplit) : Prop :=
  sp.initialDock ≠ "" ∧ sp.newDock ≠ "" ∧ 0 < sp.ratio ∧ sp.ratio < 1

/-! ## Concrete states and inputs used as examples -/

/-- A frame in which nothing is edited or pressed. -/
def idleFrame : FrameInput :=
  { slider := none, button := false, launch_rocket := false, reset_rocket := false }

/-- A frame in which the slider is edited and every button reports a click. -/
def busyFrame : FrameInput :=
  { slider := some (1 / 2), button := true, launch_rocket := true, reset_rocket := true }

/-- A frame in which only `Button("Button")` reports a click. -/
def clickFrame : FrameInput :=
  { slider := none, button := true, launch_rocket := false, reset_rocket := false }

/-- A state whose counter holds the largest `int`. -/
def counterAtMax : AppState := { counter := 2147483647 }

/-- The state right after the launch button was pressed from the initial state. -/
def justPreparing : AppState := { rocket_state := RocketState.Preparing }

/-- A state halfway through the preparation. -/
def halfPrepared : AppState :=
  { f := 1 / 4, counter := 7, rocket_progress := 1 / 2, rocket_state := RocketState.Preparing }

/-- The invariant of the rocket machine: what `rocket_progress` can be in each state. -/
def RocketInv (s : AppState) : Prop :=
  (s.rocket_state = RocketState.Init → s.rocket_progress = 0) ∧
  (s.rocket_state = RocketState.Preparing → 0 ≤ s.rocket_progress ∧ s.rocket_progress < 1) ∧
  (s.rocket_state = RocketState.Launched →
    1 ≤ s.rocket_progress ∧ s.rocket_progress < 1003 / 1000)

/-! ## Single precision -/

namespace Binary32

/-- A value of the C++ type `float` (IEEE-754 binary32): a NaN, an infinity, or a finite
value.  A finite value is an integer number of units of `2^-149`, the spacing of the
smallest binary32 values, so every finite binary32 value and every sum of two of them is
such an integer.  The two zeros `+0` and `-0` are the one value `fin 0`: the operations of
`CommandGui` (`+=`, `>=`, assignment of `0.f`) give equal results on both. -/
inductive F32 where
  | nan
  | inf (negative : Bool)
  | fin (units : Int)
  deriving DecidableEq, Repr

/-- Halving loop behind `dropBits`; the first argument bounds the number of halvings. -/
def dropBitsAux : Nat → Nat → Nat
  | 0, _ => 0
  | fuel + 1, a => if a < 16777216 then 0 else dropBitsAux fuel (a / 2) + 1

/-- The number of low-order bits that do not fit in the 24-bit significand of a magnitude
of `a` units: `0` below `2^24` (subnormals and the first binade), otherwise the `s` with
`2^(23+s) ≤ a < 2^(24+s)`.  `2 ^ dropBits a` units is the spacing of binary32 values
around `a`. -/
def dropBits (a : Nat) : Nat := dropBitsAux a a

/-- Rounding of a magnitude to 24 significant bits, to nearest, ties to even: the default
rounding of binary32 arithmetic. -/
def roundMag (a : Nat) : Nat :=
  if 2 ^ dropBits a < 2 * (a % 2 ^ dropBits a) ∨
      (2 * (a % 2 ^ dropBits a) = 2 ^ dropBits a ∧ (a / 2 ^ dropBits a) % 2 = 1) then
    (a / 2 ^ dropBits a + 1) * 2 ^ dropBits a
  else
    a / 2 ^ dropBits a * 2 ^ dropBits a

/-- The binary32 value of an exact result of `n` units: the rounded magnitude with the sign
of `n`, or an infinity when the rounded magnitude is beyond the largest finite value
`(2^24 - 1) * 2^253` units. -/
def F32.round (n : Int) : F32 :=
  if 253 < dropBits (roundMag n.natAbs) then F32.inf (decide (n < 0))
  else if n < 0 then F32.fin (-(roundMag n.natAbs : Int))
  else F32.fin (roundMag n.natAbs : Int)

/-- The binary32 `+`. -/
def F32.add : F32 → F32 → F32
  | F32.nan, _ => F32.nan
  | _, F32.nan => F32.nan
  | F32.inf a, F32.inf b => if a = b then F32.inf a else F32.nan
  | F32.inf a, F32.fin _ => F32.inf a
  | F32.fin _, F32.inf b => F32.inf b
  | F32.fin x, F32.fin y => F32.round (x + y)

/-- The binary32 `<`; false as soon as an operand is a NaN. -/
def F32.lt : F32 → F32 → Bool
  | F32.nan, _ => false
  | _, F32.nan => false
  | F32.inf a, F32.inf b => a && !b
  | F32.inf a, F32.fin _ => a
  | F32.fin _, F32.inf b => !b
  | F32.fin x, F32.fin y => decide (x < y)

/-- The binary32 `>=`; false as soon as an operand is a NaN. -/
def F32.ge : F32 → F32 → Bool
  | F32.nan, _ => false
  | _, F32.nan => false
  | F32.inf a, F32.inf b => !a || b
  | F32.inf a, F32.fin _ => !a
  | F32.fin _, F32.inf b => b
  | F32.fin x, F32.fin y => decide (y ≤ x)

/-- The values that a `float` can hold: among the `fin k`, those whose magnitude has at
most 24 significant bits and is not beyond the largest finite value. -/
def F32.IsBinary32 : F32 → Prop
  | F32.fin k => roundMag k.natAbs = k.natAbs ∧ dropBits k.natAbs ≤ 253
  | _ => True

instance (x : F32) : Decidable x.IsBinary32 := by
  cases x <;> unfold F32.IsBinary32 <;> exact inferInstance

/-- The rational value of a finite `float`. -/
def F32.value : F32 → Option ℚ
  | F32.fin k => some ((k : ℚ) / 2 ^ 149)
  | _ => none

/-- The literal `0.003f` (line 153): `6442451 / 2^31`, the binary32 value nearest to
3/1000. -/
def rocketStep : F32 := F32.fin (6442451 * 2 ^ 118)

/-- The literal `1.0f` (line 154). -/
def one : F32 := F32.fin (2 ^ 149)

/-- The literals `0.0f` and `0.f` (lines 22, 24, 166). -/
def zero : F32 := F32.fin 0

/-- The struct `AppState` (lines 21-32) with `float` members in single precision. -/
structure AppState where
  f : F32 := zero
  counter : Int := 0
  rocket_progress : F32 := zero
  rocket_state : RocketState := RocketState.Init
  deriving DecidableEq

/-- What the widgets called by `CommandGui` report during one frame (as
`DemoDocking.FrameInput`, the slider value being a `float`). -/
structure FrameInput where
  slider : Option F32
  button : Bool
  launch_rocket : Bool
  reset_rocket : Bool
  deriving DecidableEq

/-- Lines 126-130: the slider edits `state.f`. -/
def sliderPart (state : AppState) (i : FrameInput) : AppState :=
  match i.slider with
  | some v => { state with f := v }
  | none => state

/-- Lines 133-137: `if (ImGui::Button("Button")) state.counter++;`. -/
def buttonPart (state : AppState) (i : FrameInput) : AppState :=
  if i.button then { state with counter := wrapInt (state.counter + 1) } else state

/-- Lines 142-168: the `if / else if / else if` on `state.rocket_state`; line 153 is the
binary32 `+=` and line 154 the binary32 `>=`. -/
def rocketPart (state : AppState) (i : FrameInput) : AppState :=
  match state.rocket_state with
  | RocketState.Init =>
    if i.launch_rocket then
      { state with rocket_state := RocketState.Preparing }
    else state
  | RocketState.Preparing =>
    let state1 := { state with rocket_progress := F32.add state.rocket_progress rocketStep }
    if F32.ge state1.rocket_progress one then
      { state1 with rocket_state := RocketState.Launched }
    else state1
  | RocketState.Launched =>
    if i.reset_rocket then
      { state with rocket_state := RocketState.Init, rocket_progress := zero }
    else state

/-- One call of `CommandGui(AppState& state)` (lines 97-169) in single precision: slider,
counter button, then the rocket branch, in source order. -/
def CommandGui (state : AppState) (i : FrameInput) : AppState :=
  rocketPart (buttonPart (sliderPart state i) i) i

/-- The transition function as the spec words it (section 4.1): from Init a press of the
launch button leads to Preparing; from Preparing the state becomes Launched once the
progress, incremented by the fixed per-frame step, is at least 1.0; from Launched a press
of the reset button leads back to Init. -/
def specNextState (rs : RocketState) (progress : F32) (launchPressed resetPressed : Bool) :
    RocketState :=
  match rs with
  | RocketState.Init => if launchPressed then RocketState.Preparing else RocketState.Init
  | RocketState.Preparing =>
    if F32.ge (F32.add progress rocketStep) one then RocketState.Launched
    else RocketState.Preparing
  | RocketState.Launched => if resetPressed then RocketState.Init else RocketState.Launched

/-- The `float` 0.5f. -/
def half : F32 := F32.fin (2 ^ 148)

/-- The `float` 0.997f, that is `4181721 / 2^22`. -/
def nearlyOne : F32 := F32.fin (4181721 * 2 ^ 127)

/-- The `float` `-16777216.0f`, that is `-2^24`. -/
def minusTwoPow24 : F32 := F32.fin (-(2 ^ 173))

/-- A state halfway through the preparation. -/
def halfway : AppState :=
  { f := F32.fin (2 ^ 147), counter := 7, rocket_progress := half,
    rocket_state := RocketState.Preparing }

/-- A frame in which the slider is edited and every button reports a click. -/
def pressAll : FrameInput :=
  { slider := some half, button := true, launch_rocket := true, reset_rocket := true }

/-- A frame in which nothing is edited or pressed. -/
def pressNone : FrameInput :=
  { slider := none, button := false, launch_rocket := false, reset_rocket := false }

end Binary32

/-! ## Basic facts about one frame -/

@[simp]
theorem sliderPart_rocket_state (s : AppState) (i : FrameInput) :
    (sliderPart s i).rocket_state = s.rocket_state := by
  unfold sliderPart; cases i.slider <;> rfl

@[simp]
theorem sliderPart_rocket_progress (s : AppState) (i : FrameInput) :
    (sliderPart s i).rocket_progress = s.rocket_progress := by
  unfold sliderPart; cases i.slider <;> rfl

@[simp]
theorem sliderPart_counter (s : AppState) (i : FrameInput) :
    (sliderPart s i).counter = s.counter := by
  unfold sliderPart; cases i.slider <;> rfl

@[simp]
theorem buttonPart_rocket_state (s : AppState) (i : FrameInput) :
    (buttonPart s i).rocket_state = s.rocket_state := by
  unfold buttonPart; split <;> rfl

@[simp]
theorem buttonPart_rocket_progress (s : AppState) (i : FrameInput) :
    (buttonPart s i).rocket_progress = s.rocket_progress := by
  unfold buttonPart; split <;> rfl

@[simp]
theorem buttonPart_f (s : AppState) (i : FrameInput) :
    (buttonPart s i).f = s.f := by
  unfold buttonPart; split <;> rfl

@[simp]
theorem rocketPart_f (s : AppState) (i : FrameInput) :
    (rocketPart s i).f = s.f := by
  unfold rocketPart
  split <;> (try dsimp only) <;> split <;> rfl

@[simp]
theorem rocketPart_counter (s : AppState) (i : FrameInput) :
    (rocketPart s i).counter = s.counter := by
  unfold rocketPart
  split <;> (try dsimp only) <;> split <;> rfl

/-- The rocket state after a frame, by case on the state before. -/
theorem CommandGui_rocket_state (s : AppState) (i : FrameInput) :
    (CommandGui s i).rocket_state =
      match s.rocket_state with
      | RocketState.Init =>
        if i.launch_rocket then RocketState.Preparing else RocketState.Init
      | RocketState.Preparing =>
        if 1 ≤ s.rocket_progress + rocketStep then RocketState.Launched
        else RocketState.Preparing
      | RocketState.Launched =>
        if i.reset_rocket then RocketState.Init else RocketState.Launched := by
  have h1 : (buttonPart (sliderPart s i) i).rocket_state = s.rocket_state := by simp
  have h2 : (buttonPart (sliderPart s i) i).rocket_progress = s.rocket_progress := by simp
  unfold CommandGui rocketPart
  generalize buttonPart (sliderPart s i) i = t at h1 h2
  cases hs : s.rocket_state <;> rw [hs] at h1 <;> simp only [h1, h2, ge_iff_le]
  · split <;> simp_all
  · split <;> simp_all
  · split <;> simp_all

/-- The rocket progress after a frame, by case on the state before. -/
theorem CommandGui_rocket_progress (s : AppState) (i : FrameInput) :
    (CommandGui s i).rocket_progress =
      match s.rocket_state with
      | RocketState.Init => s.rocket_progress
      | RocketState.Preparing => s.rocket_progress + rocketStep
      | RocketState.Launched => if i.reset_rocket then 0 else s.rocket_progress := by
  have h1 : (buttonPart (sliderPart s i) i).rocket_state = s.rocket_state := by simp
  have h2 : (buttonPart (sliderPart s i) i).rocket_progress = s.rocket_progress := by simp
  unfold CommandGui rocketPart
  generalize buttonPart (sliderPart s i) i = t at h1 h2
  cases hs : s.rocket_state <;> rw [hs] at h1 <;> simp only [h1, h2, ge_iff_le]
  · split <;> simp_all
  · split <;> simp_all
  · split <;> simp_all

/-- A frame never touches the counter unless `Button("Button")` is clicked, and then it
stores the wrapped successor. -/
theorem CommandGui_counter (s : AppState) (i : FrameInput) :
    (CommandGui s i).counter = if i.button then wrapInt (s.counter + 1) else s.counter := by
  unfold CommandGui
  rw [rocketPart_counter]
  unfold buttonPart
  split <;> simp

theorem runFrames_nil (s : AppState) : runFrames s [] = s := rfl

theorem runFrames_cons (s : AppState) (i : FrameInput) (frames : List FrameInput) :
    runFrames s (i :: frames) = runFrames (CommandGui s i) frames := rfl

theorem runFrames_append_single (s : AppState) (frames : List FrameInput) (i : FrameInput) :
    runFrames s (frames ++ [i]) = CommandGui (runFrames s frames) i := by
  simp [runFrames, List.foldl_append]

/-- The invariant holds in the initial state. -/
theorem rocketInv_initial : RocketInv initialAppState := by
  refine ⟨fun _ => rfl, fun h => ?_, fun h => ?_⟩
  · exact absurd h (by decide)
  · exact absurd h (by decide)

/-- Every frame preserves the invariant. -/
theorem rocketInv_step (s : AppState) (i : FrameInput) (h : RocketInv s) :
    RocketInv (CommandGui s i) := by
  obtain ⟨hI, hP, hL⟩ := h
  unfold RocketInv
  rw [CommandGui_rocket_state, CommandGui_rocket_progress]
  cases hs : s.rocket_state
  · have h0 := hI hs
    by_cases hl : i.launch_rocket = true <;> simp [hl, h0]
  · obtain ⟨h0, h1⟩ := hP hs
    by_cases hge : 1 ≤ s.rocket_progress + rocketStep
    · dsimp only
      rw [if_pos hge]
      refine ⟨fun h => absurd h (by decide), fun h => absurd h (by decide), fun _ => ⟨hge, ?_⟩⟩
      unfold rocketStep; linarith
    · dsimp only
      rw [if_neg hge]
      refine ⟨fun h => absurd h (by decide), fun _ => ⟨?_, ?_⟩, fun h => absurd h (by decide)⟩
      · unfold rocketStep; linarith
      · exact lt_of_not_le hge
  · have h1 := hL hs
    by_cases hr : i.reset_rocket = true <;> simp [hr, h1]

/-- The invariant holds after any sequence of frames. -/
theorem rocketInv_runFrames (frames : List FrameInput) (s : AppState) (h : RocketInv s) :
    RocketInv (runFrames s frames) := by
  induction frames generalizing s with
  | nil => exact h
  | cons i rest ih => exact ih _ (rocketInv_step s i h)

/-! ## The rocket state machine -/

/-- C1: for every sequence of frames run from the default `AppState` and every further
frame, `rocket_state` after the frame is either the state before or the next state of the
cycle Init → Preparing → Launched → Init; no frame goes Init → Launched, Preparing → Init
or Launched → Preparing. -/
theorem rocket_state_follows_cycle (frames : List FrameInput) (i : FrameInput) :
    ((CommandGui (runFrames initialAppState frames) i).rocket_state
        = (runFrames initialAppState frames).rocket_state ∨
      (CommandGui (runFrames initialAppState frames) i).rocket_state
        = (runFrames initialAppState frames).rocket_state.next) ∧
    ¬ ((runFrames initialAppState frames).rocket_state = RocketState.Init ∧
        (CommandGui (runFrames initialAppState frames) i).rocket_state
          = RocketState.Launched) ∧
    ¬ ((runFrames initialAppState frames).rocket_state = RocketState.Preparing ∧
        (CommandGui (runFrames initialAppState frames) i).rocket_state
          = RocketState.Init) ∧
    ¬ ((runFrames initialAppState frames).rocket_state = RocketState.Launched ∧
        (CommandGui (runFrames initialAppState frames) i).rocket_state
          = RocketState.Preparing) := by
  generalize runFrames initialAppState frames = s
  rw [CommandGui_rocket_state]
  cases hs : s.rocket_state
  · by_cases hl : i.launch_rocket = true <;> simp [hl, RocketState.next]
  · by_cases hge : 1 ≤ s.rocket_progress + rocketStep <;> simp [hge, RocketState.next]
  · by_cases hr : i.reset_rocket = true <;> simp [hr, RocketState.next]

/-- C2: for every sequence of frames run from the default `AppState` and every further
frame, the frame changes `rocket_progress` from a non-zero value to exactly 0 if and only
if it is the transition from Launched back to Init, that is, if and only if the state
before is Launched and the 'Reset Rocket' button is pressed. -/
theorem progress_zeroed_iff_reset (frames : List FrameInput) (i : FrameInput) :
    (((runFrames initialAppState frames).rocket_progress ≠ 0 ∧
        (CommandGui (runFrames initialAppState frames) i).rocket_progress = 0) ↔
      ((runFrames initialAppState frames).rocket_state = RocketState.Launched ∧
        (CommandGui (runFrames initialAppState frames) i).rocket_state
          = RocketState.Init)) ∧
    (((runFrames initialAppState frames).rocket_state = RocketState.Launched ∧
        (CommandGui (runFrames initialAppState frames) i).rocket_state
          = RocketState.Init) ↔
      ((runFrames initialAppState frames).rocket_state = RocketState.Launched ∧
        i.reset_rocket = true)) := by
  have hinv := rocketInv_runFrames frames initialAppState rocketInv_initial
  generalize runFrames initialAppState frames = s at hinv
  obtain ⟨hI, hP, hL⟩ := hinv
  rw [CommandGui_rocket_state, CommandGui_rocket_progress]
  cases hs : s.rocket_state
  · have h0 := hI hs
    simp [h0]
  · obtain ⟨h0, _⟩ := hP hs
    have hne : s.rocket_progress + rocketStep ≠ 0 := by
      unfold rocketStep
      intro h
      linarith
    by_cases hge : 1 ≤ s.rocket_progress + rocketStep <;> simp [hge, hne]
  · obtain ⟨h1, _⟩ := hL hs
    have hne : s.rocket_progress ≠ 0 := by
      intro h
      rw [h] at h1
      exact absurd h1 (by norm_num)
    by_cases hr : i.reset_rocket = true <;> simp [hr, hne]

/-! ## The counter -/

theorem wrapInt_succ (c : Int) (h0 : INT_MIN ≤ c) (h1 : c < INT_MAX) :
    wrapInt (c + 1) = c + 1 := by
  unfold INT_MIN at h0
  unfold INT_MAX at h1
  unfold wrapInt
  omega

theorem clicks_cons (i : FrameInput) (frames : List FrameInput) :
    clicks (i :: frames) = (if i.button then 1 else 0) + clicks frames := by
  unfold clicks
  by_cases h : i.button = true
  · simp [h, List.filter_cons, Nat.add_comm]
  · simp [h, List.filter_cons]

theorem clicks_append_single (frames : List FrameInput) (i : FrameInput) :
    clicks (frames ++ [i]) = clicks frames + (if i.button then 1 else 0) := by
  unfold clicks
  by_cases h : i.button = true
  · simp [h, List.filter_append]
  · simp [h, List.filter_append]

/-- While the running total stays within the `int` range, the counter is the starting
value plus the number of clicks, and it stays an `int`. -/
theorem runFrames_counter (frames : List FrameInput) (s : AppState)
    (hs : IsInt s.counter) (hroom : s.counter + (clicks frames : Int) ≤ INT_MAX) :
    (runFrames s frames).counter = s.counter + (clicks frames : Int) := by
  induction frames generalizing s with
  | nil => simp [runFrames_nil, clicks]
  | cons i rest ih =>
    rw [runFrames_cons]
    rw [clicks_cons] at hroom ⊢
    obtain ⟨hlo, hhi⟩ := hs
    by_cases hb : i.button = true
    · simp only [hb, if_true, Nat.cast_add, Nat.cast_one] at hroom ⊢
      have hc : (CommandGui s i).counter = s.counter + 1 := by
        rw [CommandGui_counter, if_pos hb]
        exact wrapInt_succ _ hlo (by omega)
      have hint : IsInt (CommandGui s i).counter := by
        rw [hc]
        unfold INT_MIN at hlo
        refine ⟨?_, ?_⟩
        · unfold INT_MIN; omega
        · omega
      rw [ih _ hint (by rw [hc]; omega), hc]
      omega
    · simp only [hb] at hroom ⊢
      have hc : (CommandGui s i).counter = s.counter := by
        rw [CommandGui_counter, if_neg hb]
      have hint : IsInt (CommandGui s i).counter := by
        rw [hc]; exact ⟨hlo, hhi⟩
      rw [ih _ hint (by rw [hc]; simpa using hroom), hc]
      simp

/-- C5, what the code does at the largest `int`: a click while `counter` is 2147483647
leaves `counter` at -2147483648, which is neither `counter + 1` nor at least the value
before. -/
theorem counter_wraps_at_int_max :
    IsInt counterAtMax.counter ∧
    clickFrame.button = true ∧
    (CommandGui counterAtMax clickFrame).counter = -2147483648 ∧
    (CommandGui counterAtMax clickFrame).counter ≠ counterAtMax.counter + 1 ∧
    (CommandGui counterAtMax clickFrame).counter < counterAtMax.counter := by
  rw [CommandGui_counter]
  refine ⟨by decide, rfl, ?_, ?_, ?_⟩ <;> decide

/-- C5 (amended): from a state whose counter is an `int`, along every sequence of frames
whose clicks do not take the counter beyond the largest `int`, the counter after the
frames is the starting value plus the number of frames in which 'Button' was clicked; the
next frame adds 1 when 'Button' reports a click and leaves the counter unchanged otherwise,
so the counter never decreases. From the default state (counter 0) the counter is the
number of clicks. -/
theorem counter_counts_clicks (s : AppState) (frames : List FrameInput) (i : FrameInput)
    (hs : IsInt s.counter)
    (hroom : s.counter + (clicks (frames ++ [i]) : Int) ≤ INT_MAX) :
    (runFrames s frames).counter = s.counter + (clicks frames : Int) ∧
    (CommandGui (runFrames s frames) i).counter
      = (runFrames s frames).counter + (if i.button then 1 else 0) ∧
    (runFrames s (frames ++ [i])).counter = s.counter + (clicks (frames ++ [i]) : Int) ∧
    (runFrames s frames).counter ≤ (runFrames s (frames ++ [i])).counter := by
  have hfull := runFrames_counter (frames ++ [i]) s hs hroom
  have hpre : (runFrames s frames).counter = s.counter + (clicks frames : Int) := by
    apply runFrames_counter frames s hs
    rw [clicks_append_single] at hroom
    push_cast at hroom
    have : (0 : Int) ≤ (if i.button = true then (1 : Int) else 0) := by split <;> decide
    omega
  refine ⟨hpre, ?_, hfull, ?_⟩
  · rw [← runFrames_append_single, hfull, hpre, clicks_append_single]
    push_cast
    ring
  · rw [hfull, hpre, clicks_append_single]
    push_cast
    have : (0 : Int) ≤ (if i.button = true then (1 : Int) else 0) := by split <;> decide
    omega

/-- Witness of C5 (amended): from the default state, a click, an idle frame, then a
click. -/
theorem counter_counts_clicks_witness :
    IsInt initialAppState.counter ∧
    initialAppState.counter + (clicks ([clickFrame, idleFrame] ++ [clickFrame]) : Int)
      ≤ INT_MAX ∧
    (runFrames initialAppState [clickFrame, idleFrame]).counter
      = initialAppState.counter + (clicks [clickFrame, idleFrame] : Int) ∧
    (CommandGui (runFrames initialAppState [clickFrame, idleFrame]) clickFrame).counter
      = (runFrames initialAppState [clickFrame, idleFrame]).counter
        + (if clickFrame.button then 1 else 0) ∧
    (runFrames initialAppState ([clickFrame, idleFrame] ++ [clickFrame])).counter
      = initialAppState.counter
        + (clicks ([clickFrame, idleFrame] ++ [clickFrame]) : Int) ∧
    (runFrames initialAppState [clickFrame, idleFrame]).counter
      ≤ (runFrames initialAppState ([clickFrame, idleFrame] ++ [clickFrame])).counter :=
  ⟨by decide, by decide,
    counter_counts_clicks initialAppState [clickFrame, idleFrame] clickFrame
      (by decide) (by decide)⟩

/-! ## The status bar -/

/-- C6: `StatusBarGui` issues a progress bar if and only if `rocket_state` is Preparing,
the bar it issues carries `rocket_progress`, and the state after the call is the state
before it: `f`, `counter`, `rocket_progress` and `rocket_state` are unchanged. -/
theorem statusBar_shows_progress_iff_preparing (s : AppState) :
    ((∃ d ∈ (StatusBarGui s).2, d.isProgressBar = true)
      ↔ s.rocket_state = RocketState.Preparing) ∧
    (∀ v w h, DrawCall.ProgressBar v w h ∈ (StatusBarGui s).2 → v = s.rocket_progress) ∧
    (s.rocket_state = RocketState.Preparing →
      DrawCall.ProgressBar s.rocket_progress 100 15 ∈ (StatusBarGui s).2) ∧
    (StatusBarGui s).1 = s ∧
    (StatusBarGui s).1.f = s.f ∧
    (StatusBarGui s).1.counter = s.counter ∧
    (StatusBarGui s).1.rocket_progress = s.rocket_progress ∧
    (StatusBarGui s).1.rocket_state = s.rocket_state := by
  unfold StatusBarGui
  by_cases h : s.rocket_state = RocketState.Preparing
  · rw [if_pos h]
    refine ⟨?_, ?_, ?_, rfl, rfl, rfl, rfl, rfl⟩
    · simp [DrawCall.isProgressBar, h]
    · intro v w k hmem
      simp at hmem
      exact hmem.1
    · intro _
      simp
  · rw [if_neg h]
    refine ⟨?_, ?_, ?_, rfl, rfl, rfl, rfl, rfl⟩
    · simp [h]
    · intro v w k hmem
      simp at hmem
    · intro h2
      exact absurd h2 h

/-! ## The startup configuration -/

/-- C7: the configuration built in `main`: both docking splits have non-empty
`initialDock` and `newDock` names and a ratio strictly between 0 and 1 (1/4 each), they
split BottomSpace downwards and LeftSpace leftwards out of MainDockSpace; the three
dockable windows have non-empty, pairwise distinct labels, and each is bound to
MainDockSpace or to the `newDock` of a declared split (LeftSpace, BottomSpace,
MainDockSpace in order). -/
theorem startup_configuration_valid :
    (∀ sp ∈ dockingSplits,
      sp.valid ∧ sp.ratio = 1 / 4 ∧ sp.initialDock = "MainDockSpace") ∧
    dockingSplits.map (fun sp => (sp.newDock, sp.direction))
      = [("BottomSpace", ImGuiDir.ImGuiDir_Down), ("LeftSpace", ImGuiDir.ImGuiDir_Left)] ∧
    dockableWindows.length = 3 ∧
    (∀ w ∈ dockableWindows, w.label ≠ "") ∧
    (dockableWindows.map (fun w => w.label)).Nodup ∧
    dockableWindows.map (fun w => w.dockSpaceName)
      = ["LeftSpace", "BottomSpace", "MainDockSpace"] ∧
    (∀ w ∈ dockableWindows,
      w.dockSpaceName = "MainDockSpace" ∨
      w.dockSpaceName ∈ dockingSplits.map (fun sp => sp.newDock)) := by
  refine ⟨?_, rfl, rfl, ?_, ?_, rfl, ?_⟩
  · intro sp hsp
    simp only [dockingSplits, List.mem_cons, List.mem_singleton, List.not_mem_nil,
      or_false] at hsp
    rcases hsp with rfl | rfl
    · refine ⟨⟨by decide, by decide, ?_, ?_⟩, rfl, rfl⟩ <;> norm_num [splitMainBottom]
    · refine ⟨⟨by decide, by decide, ?_, ?_⟩, rfl, rfl⟩ <;> norm_num [splitMainLeft]
  · intro w hw
    simp only [dockableWindows, List.mem_cons, List.mem_singleton, List.not_mem_nil,
      or_false] at hw
    rcases hw with rfl | rfl | rfl <;> decide
  · decide
  · intro w hw
    simp only [dockableWindows, List.mem_cons, List.mem_singleton, List.not_mem_nil,
      or_false] at hw
    rcases hw with rfl | rfl | rfl <;> decide

/-! ## Reachable states and the length of the preparation -/

/-- C8: in every state reached from the default state by a sequence of frames,
`rocket_state = Init` implies `rocket_progress = 0`, `rocket_state = Preparing` implies
`0 ≤ rocket_progress < 1`, and `rocket_state = Launched` implies
`1 ≤ rocket_progress < 1.003`. -/
theorem reachable_progress_bounds (frames : List FrameInput) :
    ((runFrames initialAppState frames).rocket_state = RocketState.Init →
      (runFrames initialAppState frames).rocket_progress = 0) ∧
    ((runFrames initialAppState frames).rocket_state = RocketState.Preparing →
      0 ≤ (runFrames initialAppState frames).rocket_progress ∧
      (runFrames initialAppState frames).rocket_progress < 1) ∧
    ((runFrames initialAppState frames).rocket_state = RocketState.Launched →
      1 ≤ (runFrames initialAppState frames).rocket_progress ∧
      (runFrames initialAppState frames).rocket_progress < 1003 / 1000) :=
  rocketInv_runFrames frames initialAppState rocketInv_initial

/-- While the accumulated progress stays below 1, the rocket stays in Preparing and the
progress is the starting value plus one step per frame. -/
theorem runFrames_preparing (frames : List FrameInput) (s : AppState)
    (hs : s.rocket_state = RocketState.Preparing)
    (hlt : s.rocket_progress + rocketStep * (frames.length : ℚ) < 1) :
    (runFrames s frames).rocket_state = RocketState.Preparing ∧
    (runFrames s frames).rocket_progress
      = s.rocket_progress + rocketStep * (frames.length : ℚ) := by
  induction frames generalizing s with
  | nil => simp [runFrames_nil, hs]
  | cons i rest ih =>
    rw [runFrames_cons]
    have hlen : ((i :: rest).length : ℚ) = (rest.length : ℚ) + 1 := by simp
    rw [hlen] at hlt ⊢
    have hnn : (0 : ℚ) ≤ rocketStep * (rest.length : ℚ) := by
      apply mul_nonneg
      · unfold rocketStep; norm_num
      · exact Nat.cast_nonneg _
    have hnot : ¬ 1 ≤ s.rocket_progress + rocketStep := by
      intro h
      linarith
    have hst : (CommandGui s i).rocket_state = RocketState.Preparing := by
      rw [CommandGui_rocket_state, hs]
      dsimp only
      rw [if_neg hnot]
    have hpr : (CommandGui s i).rocket_progress = s.rocket_progress + rocketStep := by
      rw [CommandGui_rocket_progress, hs]
    obtain ⟨h1, h2⟩ := ih (CommandGui s i) hst (by rw [hpr]; linarith)
    refine ⟨h1, ?_⟩
    rw [h2, hpr]
    ring

/-- The frame on which the accumulated progress reaches 1 takes the rocket to Launched. -/
theorem runFrames_launches (frames : List FrameInput) (i : FrameInput) (s : AppState)
    (hs : s.rocket_state = RocketState.Preparing)
    (hlt : s.rocket_progress + rocketStep * (frames.length : ℚ) < 1)
    (hge : 1 ≤ s.rocket_progress + rocketStep * ((frames.length : ℚ) + 1)) :
    (runFrames s (frames ++ [i])).rocket_state = RocketState.Launched := by
  obtain ⟨h1, h2⟩ := runFrames_preparing frames s hs hlt
  rw [runFrames_append_single, CommandGui_rocket_state, h1]
  dsimp only
  rw [if_pos]
  rw [h2]
  linarith

/-- C9: from a state with `rocket_state = Preparing` and `rocket_progress = 0`, whatever
the frame inputs, the state is still Preparing after each of the first 333 frames and is
Launched after the 334th frame. -/
theorem launch_on_frame_334 (s : AppState) (frames : List FrameInput)
    (hs : s.rocket_state = RocketState.Preparing) (hp : s.rocket_progress = 0) :
    (∀ k, k ≤ 333 →
      (runFrames s (frames.take k)).rocket_state = RocketState.Preparing) ∧
    (334 ≤ frames.length →
      (runFrames s (frames.take 333)).rocket_state = RocketState.Preparing ∧
      (runFrames s (frames.take 334)).rocket_state = RocketState.Launched) := by
  have hprep : ∀ k, k ≤ 333 →
      (runFrames s (frames.take k)).rocket_state = RocketState.Preparing := by
    intro k hk
    refine (runFrames_preparing (frames.take k) s hs ?_).1
    have hlen : (frames.take k).length ≤ 333 := by
      rw [List.length_take]
      omega
    have hq : ((frames.take k).length : ℚ) ≤ 333 := by exact_mod_cast hlen
    rw [hp]
    unfold rocketStep
    linarith
  refine ⟨hprep, fun hlen => ⟨hprep 333 (le_refl _), ?_⟩⟩
  have h333 : 333 < frames.length := by omega
  have hsplit : frames.take 334 = frames.take 333 ++ [frames.get ⟨333, h333⟩] := by
    rw [List.take_succ]
    simp [List.getElem?_eq_getElem h333]
  have hl : (frames.take 333).length = 333 := by
    rw [List.length_take]
    omega
  rw [hsplit]
  apply runFrames_launches _ _ s hs
  · rw [hl, hp]
    unfold rocketStep
    norm_num
  · rw [hl, hp]
    unfold rocketStep
    norm_num

/-- Witness of C9: 334 frames with every button pressed, from the state right after the
launch button was pressed. -/
theorem launch_on_frame_334_witness :
    justPreparing.rocket_state = RocketState.Preparing ∧
    justPreparing.rocket_progress = 0 ∧
    334 ≤ (List.replicate 334 busyFrame).length ∧
    (runFrames justPreparing ((List.replicate 334 busyFrame).take 333)).rocket_state
      = RocketState.Preparing ∧
    (runFrames justPreparing ((List.replicate 334 busyFrame).take 334)).rocket_state
      = RocketState.Launched :=
  ⟨rfl, rfl, (List.length_replicate 334 busyFrame).ge,
    (launch_on_frame_334 justPreparing (List.replicate 334 busyFrame) rfl rfl).2
      (List.length_replicate 334 busyFrame).ge⟩

/-! ## Independence of the rocket machine -/

/-- C10: two states that agree on `rocket_state` and `rocket_progress`, run for one frame
on inputs that agree on the two rocket buttons, end with the same `rocket_state` and
`rocket_progress`, whatever `f`, `counter`, the slider edit and the 'Button' click are;
the rocket branch leaves `f` and `counter` as they are; and `rocket_progress` is
unchanged by every frame in Init (the Init → Preparing transition included) and by a
frame in Launched without 'Reset Rocket' pressed. -/
theorem rocket_independent_of_other_widgets (s1 s2 : AppState) (i1 i2 : FrameInput)
    (hstate : s1.rocket_state = s2.rocket_state)
    (hprogress : s1.rocket_progress = s2.rocket_progress)
    (hlaunch : i1.launch_rocket = i2.launch_rocket)
    (hreset : i1.reset_rocket = i2.reset_rocket) :
    (CommandGui s1 i1).rocket_state = (CommandGui s2 i2).rocket_state ∧
    (CommandGui s1 i1).rocket_progress = (CommandGui s2 i2).rocket_progress ∧
    (rocketPart s1 i1).f = s1.f ∧
    (rocketPart s1 i1).counter = s1.counter ∧
    (s1.rocket_state = RocketState.Init →
      (CommandGui s1 i1).rocket_progress = s1.rocket_progress) ∧
    (s1.rocket_state = RocketState.Launched → i1.reset_rocket = false →
      (CommandGui s1 i1).rocket_progress = s1.rocket_progress) := by
  refine ⟨?_, ?_, rocketPart_f s1 i1, rocketPart_counter s1 i1, ?_, ?_⟩
  · rw [CommandGui_rocket_state, CommandGui_rocket_state, hstate, hprogress, hlaunch, hreset]
  · rw [CommandGui_rocket_progress, CommandGui_rocket_progress, hstate, hprogress, hreset]
  · intro h
    rw [CommandGui_rocket_progress, h]
  · intro h hr
    rw [CommandGui_rocket_progress, h]
    simp [hr]

/-- Witness of C10: the halfway state against a state with another slider value and
counter, an idle frame against a frame with a slider edit and a click on 'Button'. -/
theorem rocket_independent_of_other_widgets_witness :
    (CommandGui halfPrepared idleFrame).rocket_state
      = (CommandGui { halfPrepared with f := 1, counter := 41 }
          { idleFrame with slider := some 0, button := true }).rocket_state ∧
    (CommandGui halfPrepared idleFrame).rocket_progress
      = (CommandGui { halfPrepared with f := 1, counter := 41 }
          { idleFrame with slider := some 0, button := true }).rocket_progress :=
  ⟨(rocket_independent_of_other_widgets halfPrepared
      { halfPrepared with f := 1, counter := 41 } idleFrame
      { idleFrame with slider := some 0, button := true } rfl rfl rfl rfl).1,
   (rocket_independent_of_other_widgets halfPrepared
      { halfPrepared with f := 1, counter := 41 } idleFrame
      { idleFrame with slider := some 0, button := true } rfl rfl rfl rfl).2.1⟩

/-! ## Single precision: rounding and the rocket branch -/

namespace Binary32

/-- The halving loop brackets its argument between two powers of two. -/
theorem dropBitsAux_spec (fuel a : Nat) (h : a ≤ fuel) :
    a < 2 ^ (24 + dropBitsAux fuel a) ∧
    (0 < dropBitsAux fuel a → 2 ^ (23 + dropBitsAux fuel a) ≤ a) := by
  induction fuel generalizing a with
  | zero =>
    have h0 : a = 0 := by omega
    subst h0
    simp [dropBitsAux]
  | succ fuel ih =>
    unfold dropBitsAux
    by_cases hlt : a < 16777216
    · rw [if_pos hlt]
      refine ⟨?_, fun h0 => absurd h0 (by decide)⟩
      simpa using hlt
    · rw [if_neg hlt]
      obtain ⟨h1, h2⟩ := ih (a / 2) (by omega)
      generalize dropBitsAux fuel (a / 2) = t at h1 h2
      have e1 : 2 ^ (24 + (t + 1)) = 2 * 2 ^ (24 + t) := by ring
      have e2 : 2 ^ (23 + (t + 1)) = 2 * 2 ^ (23 + t) := by ring
      refine ⟨by omega, fun _ => ?_⟩
      by_cases ht : 0 < t
      · have := h2 ht
        omega
      · have ht0 : t = 0 := by omega
        subst ht0
        norm_num
        omega

/-- A magnitude is below `2^(24 + dropBits a)`. -/
theorem lt_pow_dropBits (a : Nat) : a < 2 ^ (24 + dropBits a) :=
  (dropBitsAux_spec a a (le_refl a)).1

/-- When bits are dropped, the magnitude is at least `2^(23 + dropBits a)`. -/
theorem pow_dropBits_le (a : Nat) (h : 0 < dropBits a) : 2 ^ (23 + dropBits a) ≤ a :=
  (dropBitsAux_spec a a (le_refl a)).2 h

/-- Larger magnitudes do not drop fewer bits. -/
theorem dropBits_mono (a b : Nat) (h : a ≤ b) : dropBits a ≤ dropBits b := by
  by_contra hcon
  have hlt : dropBits b < dropBits a := by omega
  have h1 := pow_dropBits_le a (by omega)
  have h2 := lt_pow_dropBits b
  have h3 : 2 ^ (24 + dropBits b) ≤ 2 ^ (23 + dropBits a) :=
    Nat.pow_le_pow_right (by decide) (by omega)
  omega

/-- Rounding goes down to a multiple of the spacing, or up to the next one when the
magnitude is not a multiple. -/
theorem roundMag_cases (a : Nat) :
    roundMag a = a / 2 ^ dropBits a * 2 ^ dropBits a ∨
    (roundMag a = (a / 2 ^ dropBits a + 1) * 2 ^ dropBits a ∧ a % 2 ^ dropBits a ≠ 0) := by
  unfold roundMag
  split
  · rename_i h
    right
    refine ⟨rfl, ?_⟩
    intro h0
    rw [h0] at h
    have hp : 0 < 2 ^ dropBits a := Nat.pow_pos (by decide)
    omega
  · left; rfl

/-- Multiples of the spacing are left alone by the rounding. -/
theorem roundMag_eq_self_of_dvd (a : Nat) (h : 2 ^ dropBits a ∣ a) : roundMag a = a := by
  have h0 : a % 2 ^ dropBits a = 0 := Nat.mod_eq_zero_of_dvd h
  rcases roundMag_cases a with h1 | ⟨_, h2⟩
  · rw [h1]; exact Nat.div_mul_cancel h
  · exact absurd h0 h2

/-- A magnitude left alone by the rounding is a multiple of its spacing. -/
theorem dvd_of_roundMag_eq_self (b : Nat) (h : roundMag b = b) : 2 ^ dropBits b ∣ b := by
  rcases roundMag_cases b with h1 | ⟨h1, _⟩
  · rw [h] at h1
    exact Dvd.intro_left _ h1.symm
  · rw [h] at h1
    exact Dvd.intro_left _ h1.symm

/-- A multiple of `P` below `a` is below `a` rounded down to a multiple of `P`. -/
theorem le_floor_of_dvd (P c a : Nat) (hP : 0 < P) (hd : P ∣ c) (h : c ≤ a) :
    c ≤ a / P * P := by
  obtain ⟨t, rfl⟩ := hd
  have : t ≤ a / P := (Nat.le_div_iff_mul_le hP).2 (by rw [Nat.mul_comm]; exact h)
  calc P * t = t * P := Nat.mul_comm _ _
    _ ≤ a / P * P := Nat.mul_le_mul_right _ this

/-- A multiple of `P` above `a` is above `a` rounded up to the next multiple of `P`. -/
theorem ceil_le_of_dvd (P c a : Nat) (hP : 0 < P) (hd : P ∣ c) (h : a < c) :
    (a / P + 1) * P ≤ c := by
  obtain ⟨t, rfl⟩ := hd
  have : a / P < t := (Nat.div_lt_iff_lt_mul hP).2 (by rw [Nat.mul_comm]; exact h)
  calc (a / P + 1) * P ≤ t * P := Nat.mul_le_mul_right _ this
    _ = P * t := Nat.mul_comm _ _

/-- Rounding does not go below a representable magnitude that is below the argument. -/
theorem le_roundMag (a b : Nat) (hb : roundMag b = b) (h : b ≤ a) : b ≤ roundMag a := by
  have hP : 0 < 2 ^ dropBits a := Nat.pow_pos (by decide)
  have hfloor : b ≤ a / 2 ^ dropBits a * 2 ^ dropBits a := by
    have hmono := dropBits_mono b a h
    rcases Nat.lt_or_ge (dropBits b) (dropBits a) with hlt | hge
    · have h1 := lt_pow_dropBits b
      have h2 := pow_dropBits_le a (by omega)
      have h3 : 2 ^ (24 + dropBits b) ≤ 2 ^ (23 + dropBits a) :=
        Nat.pow_le_pow_right (by decide) (by omega)
      have hd : 2 ^ dropBits a ∣ 2 ^ (23 + dropBits a) := pow_dvd_pow 2 (by omega)
      have := le_floor_of_dvd _ _ a hP hd h2
      omega
    · have heq : dropBits b = dropBits a := by omega
      have hd := dvd_of_roundMag_eq_self b hb
      rw [heq] at hd
      exact le_floor_of_dvd _ b a hP hd h
  rcases roundMag_cases a with h1 | ⟨h1, _⟩
  · rw [h1]; exact hfloor
  · rw [h1]
    have : a / 2 ^ dropBits a * 2 ^ dropBits a ≤ (a / 2 ^ dropBits a + 1) * 2 ^ dropBits a :=
      Nat.mul_le_mul_right _ (Nat.le_succ _)
    omega

/-- Rounding does not go above a representable magnitude that is above the argument. -/
theorem roundMag_le (a b : Nat) (hb : roundMag b = b) (h : a ≤ b) : roundMag a ≤ b := by
  have hP : 0 < 2 ^ dropBits a := Nat.pow_pos (by decide)
  rcases roundMag_cases a with h1 | ⟨h1, hr⟩
  · rw [h1]
    exact le_trans (Nat.div_mul_le_self a _) h
  · rw [h1]
    have hmono := dropBits_mono a b h
    rcases Nat.lt_or_ge (dropBits a) (dropBits b) with hlt | hge
    · have h1 := lt_pow_dropBits a
      have h2 := pow_dropBits_le b (by omega)
      have h3 : 2 ^ (24 + dropBits a) ≤ 2 ^ (23 + dropBits b) :=
        Nat.pow_le_pow_right (by decide) (by omega)
      have hd : 2 ^ dropBits a ∣ 2 ^ (24 + dropBits a) := pow_dvd_pow 2 (by omega)
      have := ceil_le_of_dvd _ _ a hP hd h1
      omega
    · have heq : dropBits b = dropBits a := by omega
      have hd := dvd_of_roundMag_eq_self b hb
      rw [heq] at hd
      have hne : a ≠ b := by
        intro hab
        rw [hab] at hr
        exact hr (Nat.mod_eq_zero_of_dvd (dvd_of_roundMag_eq_self b hb))
      exact ceil_le_of_dvd _ b a hP hd (by omega)

/-- Rounding moves a magnitude by at most half the spacing. -/
theorem roundMag_error (a : Nat) :
    2 * roundMag a ≤ 2 * a + 2 ^ dropBits a ∧ 2 * a ≤ 2 * roundMag a + 2 ^ dropBits a := by
  have hP : 0 < 2 ^ dropBits a := Nat.pow_pos (by decide)
  have hdm := Nat.div_add_mod a (2 ^ dropBits a)
  have hmod := Nat.mod_lt a hP
  unfold roundMag
  generalize 2 ^ dropBits a = P at *
  generalize hq : a / P = q at *
  generalize hr : a % P = r at *
  have e1 : (q + 1) * P = P * q + P := by ring
  have e2 : q * P = P * q := by ring
  split
  · rename_i h
    rw [e1]
    omega
  · rename_i h
    rw [e2]
    omega

/-- A rounded magnitude is left alone by the rounding. -/
theorem roundMag_roundMag (a : Nat) : roundMag (roundMag a) = roundMag a := by
  apply roundMag_eq_self_of_dvd
  have hP : 0 < 2 ^ dropBits a := Nat.pow_pos (by decide)
  have hlt := lt_pow_dropBits a
  have hsplit : 2 ^ (24 + dropBits a) = 16777216 * 2 ^ dropBits a := by
    rw [Nat.pow_add]
  have hq : a / 2 ^ dropBits a < 16777216 := by
    apply (Nat.div_lt_iff_lt_mul hP).2
    omega
  have hdvd : 2 ^ dropBits a ∣ roundMag a := by
    rcases roundMag_cases a with h1 | ⟨h1, _⟩
    · rw [h1]; exact Dvd.intro_left _ rfl
    · rw [h1]; exact Dvd.intro_left _ rfl
  have hle : roundMag a ≤ 2 ^ (24 + dropBits a) := by
    have hup : (a / 2 ^ dropBits a + 1) * 2 ^ dropBits a ≤ 16777216 * 2 ^ dropBits a :=
      Nat.mul_le_mul_right _ hq
    have hdown : a / 2 ^ dropBits a * 2 ^ dropBits a
        ≤ (a / 2 ^ dropBits a + 1) * 2 ^ dropBits a :=
      Nat.mul_le_mul_right _ (Nat.le_succ _)
    rcases roundMag_cases a with h1 | ⟨h1, _⟩
    · rw [h1]; omega
    · rw [h1]; omega
  rcases Nat.lt_or_ge (dropBits a) (dropBits (roundMag a)) with hgt | hsmall
  · have h1 := pow_dropBits_le (roundMag a) (by omega)
    have h2 : 2 ^ (24 + dropBits a) ≤ 2 ^ (23 + dropBits (roundMag a)) :=
      Nat.pow_le_pow_right (by decide) (by omega)
    have heq : roundMag a = 2 ^ (23 + dropBits (roundMag a)) := by omega
    have hd : 2 ^ dropBits (roundMag a) ∣ 2 ^ (23 + dropBits (roundMag a)) :=
      pow_dvd_pow 2 (by omega)
    rw [← heq] at hd
    exact hd
  · exact dvd_trans (pow_dvd_pow 2 hsmall) hdvd

/-- The result of a rounding is a value that a `float` can hold. -/
theorem round_isBinary32 (n : Int) : (F32.round n).IsBinary32 := by
  unfold F32.round
  by_cases hov : 253 < dropBits (roundMag n.natAbs)
  · rw [if_pos hov]
    trivial
  · rw [if_neg hov]
    by_cases hneg : n < 0
    · rw [if_pos hneg]
      show roundMag (-(roundMag n.natAbs : Int)).natAbs = (-(roundMag n.natAbs : Int)).natAbs ∧
        dropBits (-(roundMag n.natAbs : Int)).natAbs ≤ 253
      rw [Int.natAbs_neg, Int.natAbs_ofNat]
      exact ⟨roundMag_roundMag _, by omega⟩
    · rw [if_neg hneg]
      show roundMag ((roundMag n.natAbs : Int)).natAbs = ((roundMag n.natAbs : Int)).natAbs ∧
        dropBits ((roundMag n.natAbs : Int)).natAbs ≤ 253
      rw [Int.natAbs_ofNat]
      exact ⟨roundMag_roundMag _, by omega⟩

/-- The binary32 sum is a value that a `float` can hold. -/
theorem add_isBinary32 (x y : F32) : (F32.add x y).IsBinary32 := by
  cases x with
  | nan => cases y <;> trivial
  | inf a =>
    cases y with
    | nan => trivial
    | inf b =>
      show (if a = b then F32.inf a else F32.nan).IsBinary32
      split <;> trivial
    | fin _ => trivial
  | fin k =>
    cases y with
    | nan => trivial
    | inf b => trivial
    | fin j => exact round_isBinary32 _

/-- Adding a finite value that is not negative never gives a smaller `float`. -/
theorem add_nonneg_not_lt (x : F32) (S : Int) (hx : x.IsBinary32) (hS : 0 ≤ S) :
    F32.lt (F32.add x (F32.fin S)) x = false ∧
    (x ≠ F32.nan → F32.ge (F32.add x (F32.fin S)) x = true) := by
  cases x with
  | nan => exact ⟨rfl, fun h => absurd rfl h⟩
  | inf b => cases b <;> exact ⟨rfl, fun _ => rfl⟩
  | fin k =>
    obtain ⟨hrep, hfin⟩ := hx
    have key : F32.lt (F32.round (k + S)) (F32.fin k) = false ∧
        F32.ge (F32.round (k + S)) (F32.fin k) = true := by
      unfold F32.round
      by_cases hneg : k + S < 0
      · have habs : (k + S).natAbs ≤ k.natAbs := by omega
        have hr := roundMag_le _ _ hrep habs
        have hno : ¬ 253 < dropBits (roundMag (k + S).natAbs) := by
          have := dropBits_mono _ _ hr
          omega
        rw [if_neg hno, if_pos hneg]
        unfold F32.lt F32.ge
        constructor
        · simp only [decide_eq_false_iff_not, not_lt]
          omega
        · simp only [decide_eq_true_eq]
          omega
      · have hpos : 0 ≤ (roundMag (k + S).natAbs : Int) := Int.ofNat_nonneg _
        have hge : k ≤ (roundMag (k + S).natAbs : Int) := by
          by_cases hk : k < 0
          · omega
          · have habs : k.natAbs ≤ (k + S).natAbs := by omega
            have hr := le_roundMag _ _ hrep habs
            omega
        by_cases hov : 253 < dropBits (roundMag (k + S).natAbs)
        · rw [if_pos hov]
          have hd : decide (k + S < 0) = false := by simp [hneg]
          rw [hd]
          exact ⟨rfl, rfl⟩
        · rw [if_neg hov, if_neg hneg]
          unfold F32.lt F32.ge
          constructor
          · simp only [decide_eq_false_iff_not, not_lt]
            exact hge
          · simp only [decide_eq_true_eq]
            exact hge
    exact ⟨key.1, fun _ => key.2⟩

/-- A finite binary32 sum is within half the spacing of the exact sum. -/
theorem round_error (n k : Int) (h : F32.round n = F32.fin k) :
    2 * |k - n| ≤ 2 ^ dropBits n.natAbs := by
  have herr := roundMag_error n.natAbs
  unfold F32.round at h
  have hcast : ((2 ^ dropBits n.natAbs : Nat) : Int) = 2 ^ dropBits n.natAbs := by
    push_cast; rfl
  rw [← hcast]
  by_cases hov : 253 < dropBits (roundMag n.natAbs)
  · rw [if_pos hov] at h
    cases h
  · rw [if_neg hov] at h
    by_cases hneg : n < 0
    · rw [if_pos hneg] at h
      injection h with h
      rcases abs_cases (k - n) with ⟨h1, _⟩ | ⟨h1, _⟩ <;> rw [h1] <;> omega
    · rw [if_neg hneg] at h
      injection h with h
      rcases abs_cases (k - n) with ⟨h1, _⟩ | ⟨h1, _⟩ <;> rw [h1] <;> omega


/-! ### One frame in single precision -/

/-- The rocket state after a frame in single precision, by case on the state before. -/
theorem binary32_CommandGui_rocket_state (s : AppState) (i : FrameInput) :
    (CommandGui s i).rocket_state =
      match s.rocket_state with
      | RocketState.Init =>
        if i.launch_rocket then RocketState.Preparing else RocketState.Init
      | RocketState.Preparing =>
        if F32.ge (F32.add s.rocket_progress rocketStep) one then RocketState.Launched
        else RocketState.Preparing
      | RocketState.Launched =>
        if i.reset_rocket then RocketState.Init else RocketState.Launched := by
  have h1 : (buttonPart (sliderPart s i) i).rocket_state = s.rocket_state := by
    unfold buttonPart sliderPart
    cases i.slider <;> cases i.button <;> rfl
  have h2 : (buttonPart (sliderPart s i) i).rocket_progress = s.rocket_progress := by
    unfold buttonPart sliderPart
    cases i.slider <;> cases i.button <;> rfl
  unfold CommandGui rocketPart
  generalize buttonPart (sliderPart s i) i = t at h1 h2
  cases hs : s.rocket_state <;> rw [hs] at h1 <;> simp only [h1, h2]
  · split <;> simp_all
  · split <;> simp_all
  · split <;> simp_all

/-- The rocket progress after a frame in single precision, by case on the state before. -/
theorem binary32_CommandGui_rocket_progress (s : AppState) (i : FrameInput) :
    (CommandGui s i).rocket_progress =
      match s.rocket_state with
      | RocketState.Init => s.rocket_progress
      | RocketState.Preparing => F32.add s.rocket_progress rocketStep
      | RocketState.Launched => if i.reset_rocket then zero else s.rocket_progress := by
  have h1 : (buttonPart (sliderPart s i) i).rocket_state = s.rocket_state := by
    unfold buttonPart sliderPart
    cases i.slider <;> cases i.button <;> rfl
  have h2 : (buttonPart (sliderPart s i) i).rocket_progress = s.rocket_progress := by
    unfold buttonPart sliderPart
    cases i.slider <;> cases i.button <;> rfl
  unfold CommandGui rocketPart
  generalize buttonPart (sliderPart s i) i = t at h1 h2
  cases hs : s.rocket_state <;> rw [hs] at h1 <;> simp only [h1, h2]
  · split <;> simp_all
  · split <;> simp_all
  · split <;> simp_all

set_option maxRecDepth 100000 in
/-- From 0.997f the sum with 0.003f rounds to exactly 1.0f, and the frame launches the
rocket. -/
theorem launch_from_nearly_one :
    F32.add nearlyOne rocketStep = one ∧
    (CommandGui { halfway with rocket_progress := nearlyOne } pressNone).rocket_state
      = RocketState.Launched := by
  have h : F32.add nearlyOne rocketStep = one := by decide
  refine ⟨h, ?_⟩
  rw [binary32_CommandGui_rocket_state]
  show (if F32.ge (F32.add nearlyOne rocketStep) one = true then RocketState.Launched
    else RocketState.Preparing) = RocketState.Launched
  rw [h]
  rfl

set_option maxRecDepth 100000 in
/-- At `-2^24` the step is below half the spacing of the values, and a frame leaves the
progress as it is. -/
theorem progress_unchanged_at_minus_two_pow_24 :
    (CommandGui { halfway with rocket_progress := minusTwoPow24 } pressNone).rocket_progress
      = minusTwoPow24 := by
  rw [binary32_CommandGui_rocket_progress]
  show F32.add minusTwoPow24 rocketStep = minusTwoPow24
  decide

set_option maxRecDepth 100000 in
/-- C3, what the code stores: in Preparing with `rocket_progress` 0.5f, a frame stores
`8438940 / 2^24` (0x1.018938p-1), which is neither 0.5 + 0.003 nor the exact sum of 0.5
and the literal 0.003f. -/
theorem progress_sum_is_rounded :
    halfway.rocket_state = RocketState.Preparing ∧
    halfway.rocket_progress.value = some (1 / 2) ∧
    (CommandGui halfway pressAll).rocket_progress = F32.fin (8438940 * 2 ^ 125) ∧
    (CommandGui halfway pressAll).rocket_progress.value ≠ some (1 / 2 + 3 / 1000) ∧
    (CommandGui halfway pressAll).rocket_progress.value
      ≠ some (1 / 2 + 6442451 / 2147483648) := by
  have h : (CommandGui halfway pressAll).rocket_progress = F32.fin (8438940 * 2 ^ 125) := by
    rw [binary32_CommandGui_rocket_progress]
    show F32.add half rocketStep = F32.fin (8438940 * 2 ^ 125)
    decide
  refine ⟨rfl, ?_, h, ?_, ?_⟩
  · show some (((2 ^ 148 : Int) : ℚ) / 2 ^ 149) = some (1 / 2)
    norm_num
  · rw [h]
    show some (((8438940 * 2 ^ 125 : Int) : ℚ) / 2 ^ 149) ≠ some (1 / 2 + 3 / 1000)
    norm_num
  · rw [h]
    show some (((8438940 * 2 ^ 125 : Int) : ℚ) / 2 ^ 149)
      ≠ some (1 / 2 + 6442451 / 2147483648)
    norm_num

/-- C3 (amended): in a state whose `rocket_state` is Preparing, whatever the frame input,
`rocket_progress` after one frame is the binary32 sum of the previous value and the
literal 0.003f (the exact sum rounded to nearest, ties to even); it is a `float` again, it
is not smaller than before (and at least the value before unless that is a NaN), and when
both values are finite it is within half the spacing of the binary32 values of the exact
sum of the previous value and `6442451 / 2^31`. -/
theorem progress_in_preparing_binary32 (s : AppState) (i : FrameInput)
    (h : s.rocket_state = RocketState.Preparing) (hv : s.rocket_progress.IsBinary32) :
    (CommandGui s i).rocket_progress = F32.add s.rocket_progress rocketStep ∧
    (CommandGui s i).rocket_progress.IsBinary32 ∧
    F32.lt (CommandGui s i).rocket_progress s.rocket_progress = false ∧
    (s.rocket_progress ≠ F32.nan →
      F32.ge (CommandGui s i).rocket_progress s.rocket_progress = true) ∧
    (∀ k j : Int, s.rocket_progress = F32.fin k →
      (CommandGui s i).rocket_progress = F32.fin j →
      2 * |j - (k + 6442451 * 2 ^ 118)| ≤ 2 ^ dropBits (k + 6442451 * 2 ^ 118).natAbs) := by
  have hp : (CommandGui s i).rocket_progress = F32.add s.rocket_progress rocketStep := by
    rw [binary32_CommandGui_rocket_progress, h]
  have hmono := add_nonneg_not_lt s.rocket_progress (6442451 * 2 ^ 118) hv (by positivity)
  rw [hp]
  refine ⟨rfl, add_isBinary32 _ _, hmono.1, hmono.2, ?_⟩
  intro k j hk hj
  rw [hk] at hj
  exact round_error _ _ hj

set_option maxRecDepth 100000 in
/-- Witness of C3 (amended): the state with progress 0.5f, in a frame where every button
is pressed. -/
theorem progress_in_preparing_binary32_witness :
    halfway.rocket_state = RocketState.Preparing ∧
    halfway.rocket_progress.IsBinary32 ∧
    (CommandGui halfway pressAll).rocket_progress
      = F32.add halfway.rocket_progress rocketStep ∧
    (CommandGui halfway pressAll).rocket_progress.IsBinary32 ∧
    F32.lt (CommandGui halfway pressAll).rocket_progress halfway.rocket_progress = false :=
  ⟨rfl, by decide,
    (progress_in_preparing_binary32 halfway pressAll rfl (by decide)).1,
    (progress_in_preparing_binary32 halfway pressAll rfl (by decide)).2.1,
    (progress_in_preparing_binary32 halfway pressAll rfl (by decide)).2.2.1⟩

/-- C4: the `rocket_state` produced by one frame is the one given by the transition
function of the spec, for every state and input: from Init it becomes Preparing if and only
if 'Launch rocket' is pressed; from Preparing it becomes Launched if and only if the
progress after adding the per-frame step (the value the frame stores) is at least 1.0, and
stays Preparing otherwise, whatever buttons are pressed; from Launched it becomes Init if
and only if 'Reset Rocket' is pressed. -/
theorem rocket_state_refines_spec (s : AppState) (i : FrameInput) :
    (CommandGui s i).rocket_state
      = specNextState s.rocket_state s.rocket_progress i.launch_rocket i.reset_rocket ∧
    (s.rocket_state = RocketState.Init →
      ((CommandGui s i).rocket_state = RocketState.Preparing ↔ i.launch_rocket = true) ∧
      ((CommandGui s i).rocket_state = RocketState.Init ↔ i.launch_rocket = false)) ∧
    (s.rocket_state = RocketState.Preparing →
      ((CommandGui s i).rocket_state = RocketState.Launched ↔
        F32.ge (F32.add s.rocket_progress rocketStep) one = true) ∧
      ((CommandGui s i).rocket_state = RocketState.Launched ↔
        F32.ge (CommandGui s i).rocket_progress one = true) ∧
      ((CommandGui s i).rocket_state = RocketState.Preparing ↔
        F32.ge (CommandGui s i).rocket_progress one = false)) ∧
    (s.rocket_state = RocketState.Launched →
      ((CommandGui s i).rocket_state = RocketState.Init ↔ i.reset_rocket = true) ∧
      ((CommandGui s i).rocket_state = RocketState.Launched ↔ i.reset_rocket = false)) := by
  rw [binary32_CommandGui_rocket_state, binary32_CommandGui_rocket_progress]
  unfold specNextState
  cases hs : s.rocket_state
  · by_cases hl : i.launch_rocket = true <;> simp [hl]
  · by_cases hge : F32.ge (F32.add s.rocket_progress rocketStep) one = true <;> simp [hge]
  · by_cases hr : i.reset_rocket = true <;> simp [hr]

end Binary32

end DemoDocking
